import Mathlib

/-!
Shallow embedding of the census-app room engine
(`src/lib/roomsStore.ts`, types from `src/types/room.ts`).

JavaScript `Record<string, T>` objects are modelled as insertion-ordered
association lists with unique keys; `obj[k] = v` is `recordSet` (replace the
first entry with key `k`, else append) and `obj[k]` is `recordGet`.
Timestamps (`Date.now()`) are threaded in explicitly as an `Int` argument
`now`; generated ids (`crypto.randomUUID()`) and room codes are threaded in
as `String` arguments.  The client-supplied `questionDurationSeconds` is a
JS number, modelled as `Option Int`: `some d` is a finite number with
`Math.floor` value `d`, `none` is a non-finite number (`NaN`/`±Infinity`).
Thrown `Error`s become an `Except EngineError` result.
-/

namespace Census

inductive RoomPhase where
  | lobby
  | question
  | review
  | complete
deriving DecidableEq, Repr

structure Player where
  id : String
  name : String
  joinedAt : Int
  isHost : Bool
  currentQuestionIndex : Nat
  hasFinishedVoting : Bool
deriving DecidableEq, Repr

structure Question where
  id : String
  text : String
  authorId : String
  createdAt : Int
  votes : List (String × String)
deriving DecidableEq, Repr

structure Room where
  code : String
  hostId : String
  phase : RoomPhase
  questionDurationSeconds : Int
  questionDeadline : Option Int
  currentQuestionIndex : Nat
  createdAt : Int
  players : List (String × Player)
  questions : List Question
deriving DecidableEq, Repr

/-- The distinct `throw new Error(...)` sites of the engine. -/
inductive EngineError where
  | hostNameRequired
  | nameRequired
  | roomNotFound
  | playerNotInRoom
  | notHost
  | notAcceptingQuestions
  | questionWindowClosed
  | emptyQuestion
  | noQuestionsToReview
  | votingNotActive
  | invalidQuestion
  | reviewNotStarted
deriving DecidableEq, Repr

/-- JS `String.prototype.trim`: strip leading and trailing whitespace. -/
def isJsWhitespace (c : Char) : Bool :=
  c == ' ' || c == '\t' || c == '\n' || c == '\r' || c == '\x0b' || c == '\x0c'

def jsTrim (s : String) : String :=
  ⟨((s.data.dropWhile isJsWhitespace).reverse.dropWhile isJsWhitespace).reverse⟩

/-- JS `obj[k]`: the value at key `k`, if present. -/
def recordGet (m : List (String × α)) (k : String) : Option α :=
  (m.find? (fun p => p.1 == k)).map Prod.snd

/-- JS `obj[k] = v` on a unique-key object: replace the entry with key `k`
in place, else append a new entry. -/
def recordSet : List (String × α) → String → α → List (String × α)
  | [], k, v => [(k, v)]
  | (k', v') :: rest, k, v =>
    if k' == k then (k, v) :: rest else (k', v') :: recordSet rest k v

/-- `Number.isFinite(d) ? Math.max(15, Math.min(300, Math.floor(d))) : 60`. -/
def clampDuration (durationSeconds : Option Int) : Int :=
  match durationSeconds with
  | some d => max 15 (min 300 d)
  | none => 60

/-- `room.questionDeadline && now > room.questionDeadline` — note the JS
truthiness check: a deadline of `0` is falsy and is skipped. -/
def deadlinePassed (deadline : Option Int) (now : Int) : Bool :=
  match deadline with
  | some d => d != 0 && now > d
  | none => false

/-- `sanitizeRoomForClient` from `roomsStore.ts`. -/
def sanitizeRoomForClient (room : Room) : Room :=
  if room.phase == .complete then
    room
  else if room.phase == .review then
    { room with questions := room.questions.map (fun q => { q with votes := [] }) }
  else
    { room with questions := room.questions.map (fun q =>
        { id := q.id, text := "", authorId := "", createdAt := q.createdAt, votes := [] }) }

/-- `createRoom(hostName, questionDurationSeconds)`; the generated room
`code` and host UUID `hostId` and the `Date.now()` snapshot are arguments. -/
def createRoom (hostName : String) (durationSeconds : Option Int)
    (code hostId : String) (now : Int) : Except EngineError Room :=
  if jsTrim hostName == "" then
    .error .hostNameRequired
  else
    let hostPlayer : Player :=
      { id := hostId
        name := jsTrim hostName
        joinedAt := now
        isHost := true
        currentQuestionIndex := 0
        hasFinishedVoting := false }
    .ok
      { code := code
        hostId := hostId
        phase := .lobby
        questionDurationSeconds := clampDuration durationSeconds
        questionDeadline := none
        currentQuestionIndex := 0
        createdAt := now
        players := [(hostId, hostPlayer)]
        questions := [] }

/-- `joinRoom(code, name)` on an already-loaded room; the generated
`playerId` is an argument. -/
def joinRoom (room : Room) (name : String) (playerId : String) (now : Int) :
    Except EngineError Room :=
  if jsTrim name == "" then
    .error .nameRequired
  else
    let newPlayer : Player :=
      { id := playerId
        name := jsTrim name
        joinedAt := now
        isHost := false
        currentQuestionIndex := 0
        hasFinishedVoting := false }
    .ok { room with players := recordSet room.players playerId newPlayer }

/-- `startQuestionPhase(code, hostId)` on an already-loaded room. -/
def startQuestionPhase (room : Room) (hostId : String) (now : Int) :
    Except EngineError Room :=
  if room.hostId != hostId then
    .error .notHost
  else
    .ok { room with
          phase := .question
          questionDeadline := some (now + room.questionDurationSeconds * 1000)
          currentQuestionIndex := 0 }

/-- `submitQuestion(code, playerId, text)` on an already-loaded room; the
generated question id is an argument. -/
def submitQuestion (room : Room) (playerId text questionId : String) (now : Int) :
    Except EngineError Room :=
  match recordGet room.players playerId with
  | none => .error .playerNotInRoom
  | some _ =>
    if room.phase != .question then
      .error .notAcceptingQuestions
    else if deadlinePassed room.questionDeadline now then
      .error .questionWindowClosed
    else if jsTrim text == "" then
      .error .emptyQuestion
    else
      let newQuestion : Question :=
        { id := questionId
          text := jsTrim text
          authorId := playerId
          createdAt := now
          votes := [] }
      .ok { room with questions := room.questions ++ [newQuestion] }

/-- `startReviewPhase(code, hostId)` on an already-loaded room.  Note that
it does not touch `questionDeadline`. -/
def startReviewPhase (room : Room) (hostId : String) : Except EngineError Room :=
  if room.hostId != hostId then
    .error .notHost
  else if room.questions.length == 0 then
    .error .noQuestionsToReview
  else
    let resetPlayers := room.players.map (fun p =>
      (p.1, { p.2 with currentQuestionIndex := 0, hasFinishedVoting := false }))
    .ok { room with
          phase := .review
          currentQuestionIndex := 0
          players := resetPlayers }

/-- `submitVote(code, playerId, targetPlayerId, questionIndex)` on an
already-loaded room. -/
def submitVote (room : Room) (playerId targetPlayerId : String) (questionIndex : Nat) :
    Except EngineError Room :=
  match recordGet room.players playerId with
  | none => .error .playerNotInRoom
  | some player =>
    match recordGet room.players targetPlayerId with
    | none => .error .playerNotInRoom
    | some _ =>
      if room.phase != .review then
        .error .votingNotActive
      else
        match room.questions[questionIndex]? with
        | none => .error .invalidQuestion
        | some question =>
          let questions' := room.questions.set questionIndex
            { question with votes := recordSet question.votes playerId targetPlayerId }
          let players' :=
            if questionIndex < room.questions.length - 1 then
              recordSet room.players playerId
                { player with currentQuestionIndex := questionIndex + 1 }
            else
              recordSet room.players playerId { player with hasFinishedVoting := true }
          if players'.all (fun p => p.2.hasFinishedVoting) then
            .ok { room with
                  questions := questions'
                  players := players'
                  phase := .complete
                  questionDeadline := none }
          else
            .ok { room with questions := questions', players := players' }

/-- `goToNextQuestion(code, hostId)` on an already-loaded room. -/
def goToNextQuestion (room : Room) (hostId : String) : Except EngineError Room :=
  if room.hostId != hostId then
    .error .notHost
  else if room.phase != .review then
    .error .reviewNotStarted
  else
    .ok { room with phase := .complete, questionDeadline := none }

/-- `completeRoom(code, hostId)` on an already-loaded room. -/
def completeRoom (room : Room) (hostId : String) : Except EngineError Room :=
  if room.hostId != hostId then
    .error .notHost
  else
    .ok { room with phase := .complete, questionDeadline := none }

/-!
Store level.  `roomRepository.ts` keys rows by the uppercased room code
(`loadRoom` queries `code.toUpperCase()`, `saveRoom` upserts with
`room.code.toUpperCase()`), and `persistAndBroadcast` saves the normalized
room only after every check of the operation has passed; `loadRoom` always
deserializes a fresh copy, so a thrown error leaves the stored state
untouched.  A store is an association list from (uppercase) code to Room.
-/

abbrev Store := List (String × Room)

def loadRoomS (s : Store) (code : String) : Option Room :=
  recordGet s code.toUpper

/-- `persistAndBroadcast`: normalize the code to uppercase, save; the
broadcast is fire-and-forget and does not affect the store. -/
def persistRoom (s : Store) (room : Room) : Room × Store :=
  let normalized : Room := { room with code := room.code.toUpper }
  (normalized, recordSet s normalized.code normalized)

/-- `assertRoomExists` followed by the room-level operation, saving only on
success. -/
def runOnRoom (s : Store) (code : String) (op : Room → Except EngineError Room) :
    Except EngineError Room × Store :=
  match loadRoomS s code with
  | none => (.error .roomNotFound, s)
  | some room =>
    match op room with
    | .error e => (.error e, s)
    | .ok room' =>
      let (saved, s') := persistRoom s room'
      (.ok saved, s')

def createRoomStore (s : Store) (hostName : String) (durationSeconds : Option Int)
    (code hostId : String) (now : Int) : Except EngineError Room × Store :=
  match createRoom hostName durationSeconds code hostId now with
  | .error e => (.error e, s)
  | .ok room =>
    let (saved, s') := persistRoom s room
    (.ok saved, s')

/-- `joinRoom` checks the name before loading the room. -/
def joinRoomStore (s : Store) (code name playerId : String) (now : Int) :
    Except EngineError Room × Store :=
  if jsTrim name == "" then
    (.error .nameRequired, s)
  else
    runOnRoom s code (fun room => joinRoom room name playerId now)

def getRoomStore (s : Store) (code : String) : Except EngineError Room × Store :=
  match loadRoomS s code with
  | none => (.error .roomNotFound, s)
  | some room => (.ok room, s)

def startQuestionPhaseStore (s : Store) (code hostId : String) (now : Int) :
    Except EngineError Room × Store :=
  runOnRoom s code (fun room => startQuestionPhase room hostId now)

def submitQuestionStore (s : Store) (code playerId text questionId : String) (now : Int) :
    Except EngineError Room × Store :=
  runOnRoom s code (fun room => submitQuestion room playerId text questionId now)

def startReviewPhaseStore (s : Store) (code hostId : String) :
    Except EngineError Room × Store :=
  runOnRoom s code (fun room => startReviewPhase room hostId)

def submitVoteStore (s : Store) (code playerId targetPlayerId : String)
    (questionIndex : Nat) : Except EngineError Room × Store :=
  runOnRoom s code (fun room => submitVote room playerId targetPlayerId questionIndex)

def goToNextQuestionStore (s : Store) (code hostId : String) :
    Except EngineError Room × Store :=
  runOnRoom s code (fun room => goToNextQuestion room hostId)

def completeRoomStore (s : Store) (code hostId : String) :
    Except EngineError Room × Store :=
  runOnRoom s code (fun room => completeRoom room hostId)

/-!
Reachability.  One successful engine operation on a room.  Generated
player ids come from `crypto.randomUUID()`, so a join's id is fresh
(never already a key of `players`).
-/

inductive EngineStep : Room → Room → Prop where
  | join (name playerId : String) (now : Int) (r r' : Room) :
      recordGet r.players playerId = none →
      joinRoom r name playerId now = .ok r' → EngineStep r r'
  | startQuestion (hostId : String) (now : Int) (r r' : Room) :
      startQuestionPhase r hostId now = .ok r' → EngineStep r r'
  | question (playerId text questionId : String) (now : Int) (r r' : Room) :
      submitQuestion r playerId text questionId now = .ok r' → EngineStep r r'
  | startReview (hostId : String) (r r' : Room) :
      startReviewPhase r hostId = .ok r' → EngineStep r r'
  | vote (playerId targetPlayerId : String) (questionIndex : Nat) (r r' : Room) :
      submitVote r playerId targetPlayerId questionIndex = .ok r' → EngineStep r r'
  | nextQuestion (hostId : String) (r r' : Room) :
      goToNextQuestion r hostId = .ok r' → EngineStep r r'
  | complete (hostId : String) (r r' : Room) :
      completeRoom r hostId = .ok r' → EngineStep r r'

inductive ReachableRoom : Room → Prop where
  | created (hostName : String) (durationSeconds : Option Int) (code hostId : String)
      (now : Int) (r : Room) :
      createRoom hostName durationSeconds code hostId now = .ok r → ReachableRoom r
  | step (r r' : Room) : ReachableRoom r → EngineStep r r' → ReachableRoom r'

/-!
Concrete rooms, used to exhibit reachable states.  `demoRoom0` is the
result of `createRoom "Alex" 60` with code `ROOM1`, host id `host-1`,
at time 0.
-/

def demoHost : Player :=
  { id := "host-1"
    name := "Alex"
    joinedAt := 0
    isHost := true
    currentQuestionIndex := 0
    hasFinishedVoting := false }

def demoRoom0 : Room :=
  { code := "ROOM1"
    hostId := "host-1"
    phase := .lobby
    questionDurationSeconds := 60
    questionDeadline := none
    currentQuestionIndex := 0
    createdAt := 0
    players := [("host-1", demoHost)]
    questions := [] }

/-- `demoRoom0` after the host calls `completeRoom` straight from the lobby. -/
def demoRoomDone : Room :=
  { demoRoom0 with phase := .complete, questionDeadline := none }

/-- `demoRoomDone` after the host calls `startQuestionPhase` at time 5. -/
def demoRoomBack : Room :=
  { demoRoomDone with
    phase := .question
    questionDeadline := some 60005
    currentQuestionIndex := 0 }

/-- `demoRoom0` after `startQuestionPhase` at time 0. -/
def demoRoomQ : Room :=
  { demoRoom0 with
    phase := .question
    questionDeadline := some 60000
    currentQuestionIndex := 0 }

def demoQuestion : Question :=
  { id := "q-1"
    text := "who laughs most"
    authorId := "host-1"
    createdAt := 1
    votes := [] }

/-- `demoRoomQ` after the host submits `demoQuestion` at time 1. -/
def demoRoomQ1 : Room :=
  { demoRoomQ with questions := [demoQuestion] }

/-- `demoRoomQ1` after `startReviewPhase`: note the deadline is still set. -/
def demoRoomReview : Room :=
  { demoRoomQ1 with
    phase := .review
    currentQuestionIndex := 0
    players := [("host-1", demoHost)] }

/-- `demoRoomReview` after the host votes for themselves on question 0 (the
only question): the vote is recorded, the host finishes, everyone has
finished, so the room completes and the stale deadline is cleared. -/
def demoRoomVoted : Room :=
  { demoRoomReview with
    phase := .complete
    questionDeadline := none
    players := [("host-1", { demoHost with hasFinishedVoting := true })]
    questions := [{ demoQuestion with votes := [("host-1", "host-1")] }] }

/-- A review room whose single player sits at `currentQuestionIndex = 5`
with two questions, used to exhibit self-pacing quirks of `submitVote`. -/
def demoSkewPlayer : Player :=
  { id := "host-1"
    name := "Alex"
    joinedAt := 0
    isHost := true
    currentQuestionIndex := 5
    hasFinishedVoting := false }

def demoQuestion2 : Question :=
  { id := "q-2"
    text := "who sings loudest"
    authorId := "host-1"
    createdAt := 2
    votes := [] }

def demoRoomSkew : Room :=
  { code := "ROOM2"
    hostId := "host-1"
    phase := .review
    questionDurationSeconds := 60
    questionDeadline := none
    currentQuestionIndex := 0
    createdAt := 0
    players := [("host-1", demoSkewPlayer)]
    questions := [demoQuestion, demoQuestion2] }

/-- Position of a phase along `Lobby → Question → Review → Complete`. -/
def phaseRank : RoomPhase → Nat
  | .lobby => 0
  | .question => 1
  | .review => 2
  | .complete => 3

/-- Well-formedness of the player map: unique keys, each player's `id`
field is its key, a player is flagged host exactly when its key is the
room's `hostId`, and the host is present. -/
def PlayersWF (r : Room) : Prop :=
  (r.players.map Prod.fst).Nodup ∧
  (∀ kp ∈ r.players, kp.2.id = kp.1) ∧
  (∀ kp ∈ r.players, kp.2.isHost = true ↔ kp.1 = r.hostId) ∧
  r.hostId ∈ r.players.map Prod.fst

/-- The deadline/phase relationship that actually holds on reachable
rooms: a `Question`-phase room has a deadline, and a room with a deadline
is in `Question` or `Review` (the latter because `startReviewPhase` does
not clear it). -/
abbrev DeadlineWF (r : Room) : Prop :=
  (r.phase = .question → r.questionDeadline ≠ none) ∧
  (r.questionDeadline ≠ none → r.phase = .question ∨ r.phase = .review)

/-! Lemmas about `recordGet` and `recordSet`. -/

theorem recordGet_cons {k' : String} {v' : α} {m : List (String × α)} {k : String} :
    recordGet ((k', v') :: m) k = if k' == k then some v' else recordGet m k := by
  by_cases h : k' == k
  · simp [recordGet, List.find?_cons_of_pos, h]
  · simp only [recordGet] at *
    rw [List.find?_cons_of_neg _ (by simpa using h)]
    simp [h]

theorem recordGet_recordSet_self {m : List (String × α)} {k : String} {v : α} :
    recordGet (recordSet m k v) k = some v := by
  induction m with
  | nil => simp [recordSet, recordGet_cons]
  | cons kv rest ih =>
    obtain ⟨k', v'⟩ := kv
    by_cases h : k' == k
    · simp [recordSet, h, recordGet_cons]
    · simp [recordSet, h, recordGet_cons, ih]

theorem recordGet_recordSet_ne {m : List (String × α)} {k k' : String} {v : α}
    (h : k ≠ k') : recordGet (recordSet m k v) k' = recordGet m k' := by
  induction m with
  | nil => simp [recordSet, recordGet_cons, recordGet, h]
  | cons kv rest ih =>
    obtain ⟨k0, v0⟩ := kv
    by_cases h0 : k0 == k
    · have hk0 : k0 = k := by simpa using h0
      subst hk0
      simp [recordSet, recordGet_cons, h]
    · simp [recordSet, h0, recordGet_cons, ih]

theorem recordGet_eq_none_iff {m : List (String × α)} {k : String} :
    recordGet m k = none ↔ k ∉ m.map Prod.fst := by
  induction m with
  | nil => simp [recordGet]
  | cons kv rest ih =>
    obtain ⟨k', v'⟩ := kv
    by_cases h : k' == k
    · have : k' = k := by simpa using h
      subst this
      simp [recordGet_cons]
    · have hne : k' ≠ k := by simpa using h
      simp [recordGet_cons, h, ih, hne, Ne.symm hne]

theorem recordSet_of_get_none {m : List (String × α)} {k : String} {v : α}
    (h : recordGet m k = none) : recordSet m k v = m ++ [(k, v)] := by
  induction m with
  | nil => simp [recordSet]
  | cons kv rest ih =>
    obtain ⟨k', v'⟩ := kv
    rw [recordGet_cons] at h
    by_cases hk : k' == k
    · simp [hk] at h
    · simp only [hk] at h ⊢
      simp [recordSet, hk, ih h]

theorem recordGet_mem {m : List (String × α)} {k : String} {v : α}
    (h : recordGet m k = some v) : (k, v) ∈ m := by
  induction m with
  | nil => simp [recordGet] at h
  | cons kv rest ih =>
    obtain ⟨k', v'⟩ := kv
    rw [recordGet_cons] at h
    by_cases hk : k' == k
    · have : k' = k := by simpa using hk
      subst this
      simp [hk] at h
      simp [h]
    · simp only [hk, if_false] at h
      exact List.mem_cons_of_mem _ (ih h)

theorem mem_recordSet {m : List (String × α)} {k : String} {v : α} {kp : String × α}
    (h : kp ∈ recordSet m k v) : kp ∈ m ∨ kp = (k, v) := by
  induction m with
  | nil => simpa [recordSet] using h
  | cons kv rest ih =>
    obtain ⟨k', v'⟩ := kv
    by_cases hk : k' == k
    · simp only [recordSet, hk, if_pos] at h
      rcases List.mem_cons.mp h with h | h
      · exact Or.inr h
      · exact Or.inl (List.mem_cons_of_mem _ h)
    · simp only [recordSet, hk, if_neg, Bool.false_eq_true, not_false_iff] at h
      rcases List.mem_cons.mp h with h | h
      · exact Or.inl (by simp [h])
      · rcases ih h with h | h
        · exact Or.inl (List.mem_cons_of_mem _ h)
        · exact Or.inr h

theorem recordSet_keys_of_mem {m : List (String × α)} {k : String} {v : α}
    (h : k ∈ m.map Prod.fst) :
    (recordSet m k v).map Prod.fst = m.map Prod.fst := by
  induction m with
  | nil => simp at h
  | cons kv rest ih =>
    obtain ⟨k', v'⟩ := kv
    by_cases hk : k' == k
    · have : k' = k := by simpa using hk
      subst this
      simp [recordSet, hk]
    · have hne : k' ≠ k := by simpa using hk
      simp only [List.map_cons, List.mem_cons] at h
      rcases h with h | h
      · exact absurd h.symm hne
      · simp [recordSet, hk, ih h]

/-! Shape of each engine operation on success. -/

theorem createRoom_ok {hostName : String} {dur : Option Int} {code hostId : String}
    {now : Int} {r : Room} (h : createRoom hostName dur code hostId now = .ok r) :
    r.code = code ∧ r.hostId = hostId ∧ r.phase = .lobby ∧
    r.questionDurationSeconds = clampDuration dur ∧ r.questionDeadline = none ∧
    r.createdAt = now ∧ r.currentQuestionIndex = 0 ∧
    r.players = [(hostId, { id := hostId, name := jsTrim hostName, joinedAt := now, isHost := true, currentQuestionIndex := 0, hasFinishedVoting := false })] ∧
    r.questions = [] ∧ jsTrim hostName ≠ "" := by
  unfold createRoom at h
  split at h
  · exact absurd h (by simp)
  · next hname =>
    obtain rfl : _ = r := by simpa using h
    refine ⟨rfl, rfl, rfl, rfl, rfl, rfl, rfl, rfl, rfl, ?_⟩
    simpa using hname

theorem joinRoom_ok {r : Room} {name pid : String} {now : Int} {r' : Room}
    (h : joinRoom r name pid now = .ok r') :
    r'.players = recordSet r.players pid { id := pid, name := jsTrim name, joinedAt := now, isHost := false, currentQuestionIndex := 0, hasFinishedVoting := false } ∧
    r'.phase = r.phase ∧ r'.questionDeadline = r.questionDeadline ∧
    r'.hostId = r.hostId ∧ r'.questions = r.questions ∧ r'.code = r.code ∧
    jsTrim name ≠ "" := by
  unfold joinRoom at h
  split at h
  · exact absurd h (by simp)
  · next hname =>
    obtain rfl : _ = r' := by simpa using h
    exact ⟨rfl, rfl, rfl, rfl, rfl, rfl, by simpa using hname⟩

theorem startQuestionPhase_ok {r : Room} {hid : String} {now : Int} {r' : Room}
    (h : startQuestionPhase r hid now = .ok r') :
    r' = { r with phase := .question, questionDeadline := some (now + r.questionDurationSeconds * 1000), currentQuestionIndex := 0 } ∧ r.hostId = hid := by
  unfold startQuestionPhase at h
  split at h
  · exact absurd h (by simp)
  · next hhost =>
    obtain rfl : _ = r' := by simpa using h
    exact ⟨rfl, by simpa using hhost⟩

theorem submitQuestion_ok {r : Room} {pid text qid : String} {now : Int} {r' : Room}
    (h : submitQuestion r pid text qid now = .ok r') :
    r' = { r with questions := r.questions ++ [{ id := qid, text := jsTrim text, authorId := pid, createdAt := now, votes := [] }] } ∧
    (∃ p, recordGet r.players pid = some p) ∧ r.phase = .question ∧
    deadlinePassed r.questionDeadline now = false ∧ jsTrim text ≠ "" := by
  unfold submitQuestion at h
  split at h
  · exact absurd h (by simp)
  · next p hp =>
    split at h
    · exact absurd h (by simp)
    · next hphase =>
      split at h
      · exact absurd h (by simp)
      · next hdl =>
        split at h
        · exact absurd h (by simp)
        · next htext =>
          obtain rfl : _ = r' := by simpa using h
          refine ⟨rfl, ⟨p, hp⟩, by simpa using hphase, by simpa using hdl,
            by simpa using htext⟩

theorem startReviewPhase_ok {r : Room} {hid : String} {r' : Room}
    (h : startReviewPhase r hid = .ok r') :
    r' = { r with phase := .review, currentQuestionIndex := 0, players := r.players.map (fun p => (p.1, { p.2 with currentQuestionIndex := 0, hasFinishedVoting := false })) } ∧
    r.hostId = hid ∧ r.questions.length ≠ 0 := by
  unfold startReviewPhase at h
  split at h
  · exact absurd h (by simp)
  · next hhost =>
    split at h
    · exact absurd h (by simp)
    · next hq =>
      obtain rfl : _ = r' := by simpa using h
      exact ⟨rfl, by simpa using hhost, by simpa using hq⟩

theorem completeRoom_ok {r : Room} {hid : String} {r' : Room}
    (h : completeRoom r hid = .ok r') :
    r' = { r with phase := .complete, questionDeadline := none } ∧
    r.hostId = hid := by
  unfold completeRoom at h
  split at h
  · exact absurd h (by simp)
  · next hhost =>
    obtain rfl : _ = r' := by simpa using h
    exact ⟨rfl, by simpa using hhost⟩

theorem goToNextQuestion_ok {r : Room} {hid : String} {r' : Room}
    (h : goToNextQuestion r hid = .ok r') :
    r' = { r with phase := .complete, questionDeadline := none } ∧
    r.hostId = hid ∧ r.phase = .review := by
  unfold goToNextQuestion at h
  split at h
  · exact absurd h (by simp)
  · next hhost =>
    split at h
    · exact absurd h (by simp)
    · next hphase =>
      obtain rfl : _ = r' := by simpa using h
      exact ⟨rfl, by simpa using hhost, by simpa using hphase⟩

theorem submitVote_ok {r : Room} {pid tid : String} {qi : Nat} {r' : Room}
    (h : submitVote r pid tid qi = .ok r') :
    ∃ p t q,
      recordGet r.players pid = some p ∧ recordGet r.players tid = some t ∧
      r.phase = .review ∧ r.questions[qi]? = some q ∧
      r'.questions = r.questions.set qi
        { q with votes := recordSet q.votes pid tid } ∧
      r'.players = (if qi < r.questions.length - 1 then
          recordSet r.players pid { p with currentQuestionIndex := qi + 1 }
        else
          recordSet r.players pid { p with hasFinishedVoting := true }) ∧
      r'.hostId = r.hostId ∧ r'.code = r.code ∧
      ((r'.players.all (fun x => x.2.hasFinishedVoting) = true ∧
          r'.phase = .complete ∧ r'.questionDeadline = none) ∨
        (r'.players.all (fun x => x.2.hasFinishedVoting) = false ∧
          r'.phase = .review ∧ r'.questionDeadline = r.questionDeadline)) := by
  unfold submitVote at h
  split at h
  · exact absurd h (by simp)
  · next p hp =>
    split at h
    · exact absurd h (by simp)
    · next t ht =>
      split at h
      · exact absurd h (by simp)
      · next hphase =>
        split at h
        · exact absurd h (by simp)
        · next q hq =>
          simp only [] at h
          split at h
          · next hlt =>
            split at h
            · next hall =>
              obtain rfl : _ = r' := by simpa using h
              refine ⟨p, t, q, hp, ht, by simpa using hphase, hq, rfl,
                by simp [hlt], rfl, rfl, Or.inl ⟨by simpa using hall, rfl, rfl⟩⟩
            · next hall =>
              obtain rfl : _ = r' := by simpa using h
              refine ⟨p, t, q, hp, ht, by simpa using hphase, hq, rfl,
                by simp [hlt], rfl, rfl,
                Or.inr ⟨by simpa using hall, by simpa using hphase, rfl⟩⟩
          · next hlt =>
            split at h
            · next hall =>
              obtain rfl : _ = r' := by simpa using h
              refine ⟨p, t, q, hp, ht, by simpa using hphase, hq, rfl,
                by simp [hlt], rfl, rfl, Or.inl ⟨by simpa using hall, rfl, rfl⟩⟩
            · next hall =>
              obtain rfl : _ = r' := by simpa using h
              refine ⟨p, t, q, hp, ht, by simpa using hphase, hq, rfl,
                by simp [hlt], rfl, rfl,
                Or.inr ⟨by simpa using hall, by simpa using hphase, rfl⟩⟩

/-- The preconditions of a vote guarantee success. -/
theorem submitVote_isOk {r : Room} {pid tid : String} {qi : Nat} {p t : Player}
    (hp : recordGet r.players pid = some p) (ht : recordGet r.players tid = some t)
    (hph : r.phase = RoomPhase.review) (hqi : qi < r.questions.length) :
    ∃ r', submitVote r pid tid qi = .ok r' := by
  have hq : r.questions[qi]? = some r.questions[qi] := List.getElem?_eq_getElem hqi
  simp only [submitVote, hp, ht, hph, hq, bne_self_eq_false, Bool.false_eq_true,
    if_false]
  split <;> (split <;> exact ⟨_, rfl⟩)

/-- Claim C5: the visibility filter redacts exactly as the phase demands:
identity on `Complete`; on `Review` every question keeps `id`, `text`,
`authorId`, `createdAt` but its votes are emptied; on `Lobby`/`Question`
every question additionally has its `text` and `authorId` blanked, with
`id` and `createdAt` preserved. -/
theorem sanitizeRoomForClient_visibility (r : Room) :
    (r.phase = RoomPhase.complete → sanitizeRoomForClient r = r) ∧
    (r.phase = RoomPhase.review →
      (sanitizeRoomForClient r).questions.length = r.questions.length ∧
      ∀ (i : Nat) (q : Question), r.questions[i]? = some q →
        (sanitizeRoomForClient r).questions[i]? = some { q with votes := [] }) ∧
    ((r.phase = RoomPhase.lobby ∨ r.phase = RoomPhase.question) →
      (sanitizeRoomForClient r).questions.length = r.questions.length ∧
      ∀ (i : Nat) (q : Question), r.questions[i]? = some q →
        (sanitizeRoomForClient r).questions[i]? = some { id := q.id, text := "", authorId := "", createdAt := q.createdAt, votes := [] }) := by
  refine ⟨fun h => ?_, fun h => ?_, fun h => ?_⟩
  · simp [sanitizeRoomForClient, h]
  · constructor
    · simp [sanitizeRoomForClient, h]
    · intro i q hq
      simp [sanitizeRoomForClient, h, List.getElem?_map, hq]
  · rcases h with h | h <;>
    · constructor
      · simp [sanitizeRoomForClient, h]
      · intro i q hq
        simp [sanitizeRoomForClient, h, List.getElem?_map, hq]

/-- Claim C5 witness: the filter at the concrete review room. -/
theorem sanitizeRoomForClient_visibility_witness :
    sanitizeRoomForClient demoRoomVoted = demoRoomVoted ∧
    (sanitizeRoomForClient demoRoomReview).questions[0]? = some { demoQuestion with votes := [] } := by
  obtain ⟨hc, -, -⟩ := sanitizeRoomForClient_visibility demoRoomVoted
  obtain ⟨-, hr, -⟩ := sanitizeRoomForClient_visibility demoRoomReview
  exact ⟨hc rfl, (hr rfl).2 0 demoQuestion rfl⟩

/-- Claim C7: a create with a non-blank host name yields a lobby room with
no questions, a single player — the host, with fresh progress — and the
duration clamped to `[15, 300]` when the requested duration is finite and
defaulted to `60` otherwise. -/
theorem createRoom_postcondition (hostName : String) (dur : Option Int)
    (code hostId : String) (now : Int) (h : jsTrim hostName ≠ "") :
    ∃ r, createRoom hostName dur code hostId now = .ok r ∧
      r.phase = RoomPhase.lobby ∧ r.questions = [] ∧ r.players.length = 1 ∧
      recordGet r.players hostId = some { id := hostId, name := jsTrim hostName, joinedAt := now, isHost := true, currentQuestionIndex := 0, hasFinishedVoting := false } ∧
      (∀ d, dur = some d → r.questionDurationSeconds = max 15 (min 300 d)) ∧
      (dur = none → r.questionDurationSeconds = 60) ∧
      15 ≤ r.questionDurationSeconds ∧ r.questionDurationSeconds ≤ 300 := by
  rcases hE : createRoom hostName dur code hostId now with e | r
  · rw [createRoom, if_neg (by simpa using h)] at hE
    cases hE
  · obtain ⟨-, -, hph, hdur, -, -, -, hpl, hqs, -⟩ := createRoom_ok hE
    refine ⟨r, rfl, hph, hqs, by rw [hpl]; rfl, by rw [hpl]; simp [recordGet_cons],
      ?_, ?_, ?_, ?_⟩
    · intro d hd
      rw [hdur, hd]
      rfl
    · intro hd
      rw [hdur, hd]
      rfl
    · rw [hdur]
      cases dur with
      | none => simp [clampDuration]
      | some d => simp [clampDuration]
    · rw [hdur]
      cases dur with
      | none => simp [clampDuration]
      | some d =>
        simp only [clampDuration]
        rcases le_total d 300 with hle | hle
        · rw [min_eq_right hle]
          rcases le_total 15 d with h15 | h15
          · rw [max_eq_right h15]
            exact hle
          · rw [max_eq_left h15]
            norm_num
        · rw [min_eq_left hle]
          norm_num [max_le_iff]

/-- Claim C7 witness: create at a concrete oversized duration. -/
theorem createRoom_postcondition_witness :
    (jsTrim "  Alex " ≠ "") ∧
    ∃ r, createRoom "  Alex " (some 1000) "ROOM9" "h-9" 7 = .ok r ∧
      r.phase = RoomPhase.lobby ∧ r.questionDurationSeconds = max 15 (min 300 1000) := by
  have h : jsTrim "  Alex " ≠ "" := by decide
  obtain ⟨r, hok, hph, -, -, -, hdur, -⟩ :=
    createRoom_postcondition "  Alex " (some 1000) "ROOM9" "h-9" 7 h
  exact ⟨h, r, hok, hph, hdur 1000 rfl⟩

/-- Claim C2 is false as a reachable-state invariant: the host can call
`completeRoom` straight from the lobby, reaching `Complete` while the host
player still has `hasFinishedVoting = false`. -/
theorem auto_completion_counterexample :
    ReachableRoom demoRoomDone ∧ demoRoomDone.phase = RoomPhase.complete ∧
    demoRoomDone.players.all (fun p => p.2.hasFinishedVoting) = false := by
  refine ⟨.step _ _ (.created "Alex" (some 60) "ROOM1" "host-1" 0 _ rfl)
    (.complete "host-1" _ _ rfl), rfl, by decide⟩

/-- Claim C2 (amended): the completion barrier holds locally at every
successful `submitVote`: the resulting phase is `Complete` exactly when
every current player has finished voting. -/
theorem submitVote_completion_barrier (r r' : Room) (pid tid : String) (qi : Nat)
    (h : submitVote r pid tid qi = .ok r') :
    (r'.phase = RoomPhase.complete ↔
      r'.players.all (fun p => p.2.hasFinishedVoting) = true) := by
  obtain ⟨p, t, q, -, -, -, -, -, -, -, -, hc⟩ := submitVote_ok h
  rcases hc with ⟨hall, hph', -⟩ | ⟨hall, hph', -⟩
  · simp [hph', hall]
  · simp [hph', hall]

/-- Claim C2 witness: the barrier at the concrete one-player review room. -/
theorem submitVote_completion_barrier_witness :
    (demoRoomVoted.phase = RoomPhase.complete ↔
      demoRoomVoted.players.all (fun p => p.2.hasFinishedVoting) = true) :=
  submitVote_completion_barrier demoRoomReview demoRoomVoted "host-1" "host-1" 0 rfl

/-- Claim C3: a review-phase vote by a member on a member at a valid index
succeeds; it records `votes[playerId] = targetPlayerId` on that question,
leaves every other question untouched, marks the player finished when the
index is the last one and otherwise advances the player to `index + 1`,
and completes the room (clearing the deadline) when everyone is finished. -/
theorem submitVote_postcondition (r : Room) (pid tid : String) (qi : Nat)
    (p t : Player) (hp : recordGet r.players pid = some p)
    (ht : recordGet r.players tid = some t) (hph : r.phase = RoomPhase.review)
    (hqi : qi < r.questions.length) :
    ∃ r', submitVote r pid tid qi = .ok r' ∧
      (∃ q q', r.questions[qi]? = some q ∧ r'.questions[qi]? = some q' ∧
        q' = { q with votes := recordSet q.votes pid tid } ∧
        recordGet q'.votes pid = some tid) ∧
      (∀ j, j ≠ qi → r'.questions[j]? = r.questions[j]?) ∧
      (qi = r.questions.length - 1 →
        recordGet r'.players pid = some { p with hasFinishedVoting := true }) ∧
      (qi < r.questions.length - 1 →
        recordGet r'.players pid = some { p with currentQuestionIndex := qi + 1 }) ∧
      (r'.players.all (fun x => x.2.hasFinishedVoting) = true →
        r'.phase = RoomPhase.complete ∧ r'.questionDeadline = none) := by
  obtain ⟨r', hok⟩ := submitVote_isOk hp ht hph hqi
  obtain ⟨p0, t0, q, hp0, ht0, -, hq0, hqs, hps, -, -, hc⟩ := submitVote_ok hok
  rw [hp] at hp0
  obtain rfl : p = p0 := by simpa using hp0
  have hqlen : qi < (r.questions.set qi { q with votes := recordSet q.votes pid tid }).length := by
    simpa using hqi
  refine ⟨r', hok, ⟨q, { q with votes := recordSet q.votes pid tid }, hq0, ?_, rfl,
      recordGet_recordSet_self⟩, ?_, ?_, ?_, ?_⟩
  · rw [hqs]
    exact List.getElem?_set_eq_of_lt _ hqi
  · intro j hj
    rw [hqs]
    exact List.getElem?_set_ne (fun hc' => hj hc'.symm)
  · intro hlast
    have hnlt : ¬ qi < r.questions.length - 1 := by omega
    rw [hps, if_neg hnlt]
    exact recordGet_recordSet_self
  · intro hlt
    rw [hps, if_pos hlt]
    exact recordGet_recordSet_self
  · intro hall
    rcases hc with ⟨-, h1, h2⟩ | ⟨hf, -, -⟩
    · exact ⟨h1, h2⟩
    · rw [hall] at hf
      cases hf

/-- Claim C3 witness: the vote on the concrete one-question review room. -/
theorem submitVote_postcondition_witness :
    (submitVote demoRoomReview "host-1" "host-1" 0).toOption.isSome = true := by
  obtain ⟨r', hok, -⟩ := submitVote_postcondition demoRoomReview "host-1" "host-1" 0
    demoHost demoHost rfl rfl rfl (by decide)
  rw [hok]
  rfl

/-- Claim C10: `submitVote` never consults the voting player's
`currentQuestionIndex`: any member may vote at any valid index in review
phase; a vote at the last index immediately sets `hasFinishedVoting`
(regardless of earlier questions), and a vote at a non-final index resets
the player's position to `index + 1` whatever it was before. -/
theorem submitVote_ignores_player_progress (r : Room) (pid tid : String) (qi : Nat)
    (p t : Player) (hp : recordGet r.players pid = some p)
    (ht : recordGet r.players tid = some t) (hph : r.phase = RoomPhase.review)
    (hqi : qi < r.questions.length) :
    (∃ r', submitVote r pid tid qi = .ok r') ∧
    (qi = r.questions.length - 1 →
      ∃ r', submitVote r pid tid qi = .ok r' ∧
        recordGet r'.players pid = some { p with hasFinishedVoting := true } ∧
        (r'.players.all (fun x => x.2.hasFinishedVoting) = true →
          r'.phase = RoomPhase.complete)) ∧
    (qi + 1 < r.questions.length →
      ∃ r', submitVote r pid tid qi = .ok r' ∧
        recordGet r'.players pid = some { p with currentQuestionIndex := qi + 1 }) := by
  obtain ⟨r', hok, -, -, hlast, hlt, hcomp⟩ :=
    submitVote_postcondition r pid tid qi p t hp ht hph hqi
  refine ⟨⟨r', hok⟩, fun h => ⟨r', hok, hlast h, fun ha => (hcomp ha).1⟩,
    fun h => ⟨r', hok, hlt (by omega)⟩⟩

/-- Claim C10 witness: in a two-question review room whose only player sits
at `currentQuestionIndex = 5`, a vote at index 0 is accepted and drags the
player back to index 1. -/
theorem submitVote_ignores_player_progress_witness :
    demoSkewPlayer.currentQuestionIndex = 5 ∧
    (submitVote demoRoomSkew "host-1" "host-1" 0).toOption.map
      (fun r' => recordGet r'.players "host-1") =
      some (some { demoSkewPlayer with currentQuestionIndex := 1 }) := by
  obtain ⟨-, -, hlt⟩ := submitVote_ignores_player_progress demoRoomSkew "host-1"
    "host-1" 0 demoSkewPlayer demoSkewPlayer rfl rfl rfl (by decide)
  obtain ⟨r', hok, hget⟩ := hlt (by decide)
  have hget' : recordGet r'.players "host-1" =
      some { demoSkewPlayer with currentQuestionIndex := 1 } := by
    simpa using hget
  refine ⟨rfl, ?_⟩
  rw [hok]
  show some (recordGet r'.players "host-1") =
    some (some { demoSkewPlayer with currentQuestionIndex := 1 })
  rw [hget']

/-! The concrete rooms are reachable. -/

theorem demoRoom0_reachable : ReachableRoom demoRoom0 :=
  .created "Alex" (some 60) "ROOM1" "host-1" 0 _ rfl

theorem demoRoomDone_reachable : ReachableRoom demoRoomDone :=
  .step _ _ demoRoom0_reachable (.complete "host-1" _ _ rfl)

theorem demoRoomQ_reachable : ReachableRoom demoRoomQ :=
  .step _ _ demoRoom0_reachable (.startQuestion "host-1" 0 _ _ rfl)

theorem demoRoomQ1_reachable : ReachableRoom demoRoomQ1 :=
  .step _ _ demoRoomQ_reachable (.question "host-1" "who laughs most" "q-1" 1 _ _ rfl)

theorem demoRoomReview_reachable : ReachableRoom demoRoomReview :=
  .step _ _ demoRoomQ1_reachable (.startReview "host-1" _ _ rfl)

/-- Claim C1 is false on the code: `startQuestionPhase` has no phase guard,
so the host of the (reachable) completed room `demoRoomDone` can call it
and drag the phase backward from `Complete` to `Question`. -/
theorem phase_monotonicity_counterexample :
    ReachableRoom demoRoomDone ∧ EngineStep demoRoomDone demoRoomBack ∧
    demoRoomDone.phase = RoomPhase.complete ∧
    demoRoomBack.phase = RoomPhase.question ∧
    phaseRank demoRoomBack.phase < phaseRank demoRoomDone.phase :=
  ⟨demoRoomDone_reachable, .startQuestion "host-1" 5 _ _ rfl, rfl, rfl, by decide⟩

/-- Claim C1 (amended): the phase-change behaviour of each operation.
`joinRoom` and `submitQuestion` preserve the phase; `submitVote` and
`goToNextQuestion` require `Review` and move at most to `Complete`; but
the host operations `startQuestionPhase`, `startReviewPhase` and
`completeRoom` set the phase unconditionally (to `Question`, `Review`,
`Complete` respectively) with no guard on the current phase, so host
actions can move the phase backward and re-enter `Question` or `Review`. -/
theorem phase_transitions_per_operation (r r' : Room) :
    (∀ name pid now, joinRoom r name pid now = .ok r' → r'.phase = r.phase) ∧
    (∀ pid text qid now, submitQuestion r pid text qid now = .ok r' →
      r'.phase = r.phase) ∧
    (∀ pid tid qi, submitVote r pid tid qi = .ok r' →
      r.phase = RoomPhase.review ∧
      (r'.phase = RoomPhase.review ∨ r'.phase = RoomPhase.complete)) ∧
    (∀ hid, goToNextQuestion r hid = .ok r' →
      r.phase = RoomPhase.review ∧ r'.phase = RoomPhase.complete) ∧
    (∀ hid, completeRoom r hid = .ok r' → r'.phase = RoomPhase.complete) ∧
    (∀ hid now, startQuestionPhase r hid now = .ok r' →
      r'.phase = RoomPhase.question) ∧
    (∀ hid, startReviewPhase r hid = .ok r' → r'.phase = RoomPhase.review) := by
  refine ⟨?_, ?_, ?_, ?_, ?_, ?_, ?_⟩
  · intro name pid now h
    exact (joinRoom_ok h).2.1
  · intro pid text qid now h
    rw [(submitQuestion_ok h).1]
  · intro pid tid qi h
    obtain ⟨p, t, q, -, -, hph, -, -, -, -, -, hc⟩ := submitVote_ok h
    rcases hc with ⟨-, h1, -⟩ | ⟨-, h1, -⟩
    · exact ⟨hph, Or.inr h1⟩
    · exact ⟨hph, Or.inl h1⟩
  · intro hid h
    obtain ⟨heq, -, hph⟩ := goToNextQuestion_ok h
    exact ⟨hph, by rw [heq]⟩
  · intro hid h
    rw [(completeRoom_ok h).1]
  · intro hid now h
    rw [(startQuestionPhase_ok h).1]
  · intro hid h
    rw [(startReviewPhase_ok h).1]

/-- Claim C1 witness: the amended characterization at concrete rooms. -/
theorem phase_transitions_per_operation_witness :
    demoRoomDone.phase = RoomPhase.complete ∧
    demoRoomBack.phase = RoomPhase.question ∧
    demoRoomReview.phase = RoomPhase.review :=
  ⟨(phase_transitions_per_operation demoRoom0 demoRoomDone).2.2.2.2.1 "host-1" rfl,
   (phase_transitions_per_operation demoRoomDone demoRoomBack).2.2.2.2.2.1
     "host-1" 5 rfl,
   (phase_transitions_per_operation demoRoomQ1 demoRoomReview).2.2.2.2.2.2
     "host-1" rfl⟩

/-- Claim C4 is false on the code: `startReviewPhase` does not clear
`questionDeadline`, so the reachable room `demoRoomReview` is in `Review`
while its deadline is still set. -/
theorem deadline_iff_question_counterexample :
    ReachableRoom demoRoomReview ∧ demoRoomReview.phase = RoomPhase.review ∧
    demoRoomReview.questionDeadline = some 60000 :=
  ⟨demoRoomReview_reachable, rfl, rfl⟩

/-- Claim C4 (amended): on every reachable room, `phase = Question` implies
the deadline is set, and a set deadline implies the phase is `Question` or
`Review` — the `Review` case arises because `startReviewPhase` leaves the
deadline untouched; `submitVote` auto-completion, `goToNextQuestion` and
`completeRoom` do clear it. -/
theorem deadline_phase_invariant (r : Room) (h : ReachableRoom r) :
    DeadlineWF r := by
  induction h with
  | created hostName dur code hostId now r hE =>
    obtain ⟨-, -, hph, -, hdl, -⟩ := createRoom_ok hE
    constructor
    · intro hq
      rw [hph] at hq
      cases hq
    · intro hd
      exact absurd hdl hd
  | step r r' hr hstep ih =>
    obtain ⟨ih1, ih2⟩ := ih
    cases hstep with
    | join name pid now _ _ hfresh hok =>
      obtain ⟨-, hph, hdl, -⟩ := joinRoom_ok hok
      exact ⟨fun hq => by rw [hdl]; exact ih1 (hph ▸ hq),
        fun hd => by rw [hph]; exact ih2 (hdl ▸ hd)⟩
    | startQuestion hid now _ _ hok =>
      obtain ⟨heq, -⟩ := startQuestionPhase_ok hok
      subst heq
      exact ⟨fun _ => by simp, fun _ => Or.inl rfl⟩
    | question pid text qid now _ _ hok =>
      obtain ⟨heq, -⟩ := submitQuestion_ok hok
      subst heq
      exact ⟨ih1, ih2⟩
    | startReview hid _ _ hok =>
      obtain ⟨heq, -⟩ := startReviewPhase_ok hok
      subst heq
      exact ⟨fun hq => (nomatch hq), fun _ => Or.inr rfl⟩
    | vote pid tid qi _ _ hok =>
      obtain ⟨p, t, q, -, -, -, -, -, -, -, -, hc⟩ := submitVote_ok hok
      rcases hc with ⟨-, hph, hdl⟩ | ⟨-, hph, hdl⟩
      · exact ⟨fun hq => (nomatch hph ▸ hq), fun hd => absurd hdl hd⟩
      · exact ⟨fun hq => (nomatch hph ▸ hq), fun _ => Or.inr hph⟩
    | nextQuestion hid _ _ hok =>
      obtain ⟨heq, -⟩ := goToNextQuestion_ok hok
      subst heq
      exact ⟨fun hq => (nomatch hq), fun hd => absurd rfl hd⟩
    | complete hid _ _ hok =>
      obtain ⟨heq, -⟩ := completeRoom_ok hok
      subst heq
      exact ⟨fun hq => (nomatch hq), fun hd => absurd rfl hd⟩

/-- Claim C4 witness: the amended invariant at the concrete question-phase
room. -/
theorem deadline_phase_invariant_witness : DeadlineWF demoRoomQ :=
  deadline_phase_invariant demoRoomQ demoRoomQ_reachable

/-- A failing `runOnRoom` never touches the store. -/
theorem runOnRoom_error_unchanged {s : Store} {code : String}
    {op : Room → Except EngineError Room} {e : EngineError}
    (h : (runOnRoom s code op).1 = .error e) : (runOnRoom s code op).2 = s := by
  rcases hl : loadRoomS s code with _ | room
  · simp [runOnRoom, hl]
  · rcases ho : op room with e' | room'
    · simp [runOnRoom, hl, ho]
    · exfalso
      simp [runOnRoom, hl, ho, persistRoom] at h

/-- Claim C6: every store-level engine operation validates before it saves:
whenever an operation returns a failure, the store it leaves behind is
exactly the store it was given. -/
theorem operations_atomic_on_failure (s : Store)
    (hostName name text code playerId targetPlayerId questionId hostId : String)
    (durationSeconds : Option Int) (now : Int) (questionIndex : Nat) :
    (∀ e, (createRoomStore s hostName durationSeconds code hostId now).1 = .error e →
      (createRoomStore s hostName durationSeconds code hostId now).2 = s) ∧
    (∀ e, (joinRoomStore s code name playerId now).1 = .error e →
      (joinRoomStore s code name playerId now).2 = s) ∧
    (∀ e, (getRoomStore s code).1 = .error e → (getRoomStore s code).2 = s) ∧
    (∀ e, (startQuestionPhaseStore s code hostId now).1 = .error e →
      (startQuestionPhaseStore s code hostId now).2 = s) ∧
    (∀ e, (submitQuestionStore s code playerId text questionId now).1 = .error e →
      (submitQuestionStore s code playerId text questionId now).2 = s) ∧
    (∀ e, (startReviewPhaseStore s code hostId).1 = .error e →
      (startReviewPhaseStore s code hostId).2 = s) ∧
    (∀ e, (submitVoteStore s code playerId targetPlayerId questionIndex).1 = .error e →
      (submitVoteStore s code playerId targetPlayerId questionIndex).2 = s) ∧
    (∀ e, (goToNextQuestionStore s code hostId).1 = .error e →
      (goToNextQuestionStore s code hostId).2 = s) ∧
    (∀ e, (completeRoomStore s code hostId).1 = .error e →
      (completeRoomStore s code hostId).2 = s) := by
  refine ⟨?_, ?_, ?_, ?_, ?_, ?_, ?_, ?_, ?_⟩
  · intro e h
    rcases hc : createRoom hostName durationSeconds code hostId now with e' | room
    · simp [createRoomStore, hc]
    · exfalso
      simp [createRoomStore, hc, persistRoom] at h
  · intro e h
    by_cases hn : jsTrim name == ""
    · simp [joinRoomStore, hn]
    · rw [joinRoomStore, if_neg hn] at h ⊢
      exact runOnRoom_error_unchanged h
  · intro e h
    rcases hl : loadRoomS s code with _ | room <;> simp [getRoomStore, hl]
  · intro e h
    exact runOnRoom_error_unchanged h
  · intro e h
    exact runOnRoom_error_unchanged h
  · intro e h
    exact runOnRoom_error_unchanged h
  · intro e h
    exact runOnRoom_error_unchanged h
  · intro e h
    exact runOnRoom_error_unchanged h
  · intro e h
    exact runOnRoom_error_unchanged h

/-- Claim C6 witness: completing a room that does not exist fails and
leaves the (empty) store untouched. -/
theorem operations_atomic_on_failure_witness :
    (completeRoomStore [] "NOPE" "x").1 = .error EngineError.roomNotFound ∧
    (completeRoomStore [] "NOPE" "x").2 = [] :=
  ⟨rfl, (operations_atomic_on_failure [] "a" "b" "c" "NOPE" "p" "t" "q" "x"
    none 0 0).2.2.2.2.2.2.2.2 EngineError.roomNotFound rfl⟩

/-- Claim C8: for a member `pid` of a room whose set deadline (if any) is a
positive timestamp — as every deadline produced by `startQuestionPhase`
from a positive clock is — `submitQuestion` fails exactly when the phase
is not `Question`, or the deadline has strictly passed (`now` strictly
greater), or the text trims to empty; a submission at `now` equal to the
deadline is accepted; and a successful submission appends exactly one
question carrying the trimmed text, the submitter as author and no votes,
leaving all prior questions unchanged.  (The positivity hypothesis mirrors
the JS truthiness check `room.questionDeadline && ...`, under which a
deadline of `0` would be ignored.) -/
theorem submitQuestion_guard (r : Room) (pid text qid : String) (now : Int)
    (p : Player) (hp : recordGet r.players pid = some p)
    (hpos : ∀ d, r.questionDeadline = some d → 0 < d) :
    ((∃ e, submitQuestion r pid text qid now = .error e) ↔
      (r.phase ≠ RoomPhase.question ∨
        (∃ d, r.questionDeadline = some d ∧ d < now) ∨ jsTrim text = "")) ∧
    (r.phase = RoomPhase.question → r.questionDeadline = some now →
      jsTrim text ≠ "" → ∃ r', submitQuestion r pid text qid now = .ok r') ∧
    (∀ r', submitQuestion r pid text qid now = .ok r' →
      r'.questions = r.questions ++ [{ id := qid, text := jsTrim text, authorId := pid, createdAt := now, votes := [] }]) := by
  have hdl : deadlinePassed r.questionDeadline now = true ↔
      ∃ d, r.questionDeadline = some d ∧ d < now := by
    cases hq : r.questionDeadline with
    | none => simp [deadlinePassed]
    | some d =>
      have hd0 : d ≠ 0 := by
        have := hpos d hq
        omega
      simp [deadlinePassed, hd0]
  have hfail : (∃ e, submitQuestion r pid text qid now = .error e) ↔
      (r.phase ≠ RoomPhase.question ∨
        (∃ d, r.questionDeadline = some d ∧ d < now) ∨ jsTrim text = "") := by
    constructor
    · rintro ⟨e, he⟩
      by_contra hcon
      push_neg at hcon
      obtain ⟨h1, h2, h3⟩ := hcon
      have hdlf : deadlinePassed r.questionDeadline now = false := by
        rcases hb : deadlinePassed r.questionDeadline now with _ | _
        · rfl
        · obtain ⟨d, hd, hlt⟩ := hdl.mp hb
          have := h2 d hd
          omega
      rw [submitQuestion] at he
      rw [hp] at he
      simp [h1, hdlf, h3] at he
    · intro hor
      rcases hE : submitQuestion r pid text qid now with e | r'
      · exact ⟨e, rfl⟩
      · obtain ⟨-, -, hph, hdlf, htx⟩ := submitQuestion_ok hE
        rcases hor with h1 | ⟨d, hd, hlt⟩ | h3
        · exact absurd hph h1
        · rw [hdl.mpr ⟨d, hd, hlt⟩] at hdlf
          cases hdlf
        · exact absurd h3 htx
  refine ⟨hfail, ?_, ?_⟩
  · intro hph hdeq htx
    rcases hE : submitQuestion r pid text qid now with e | r'
    · have := hfail.mp ⟨e, hE⟩
      rcases this with h1 | ⟨d, hd, hlt⟩ | h3
      · exact absurd hph h1
      · rw [hdeq] at hd
        injection hd with hd
        omega
      · exact absurd h3 htx
    · exact ⟨r', rfl⟩
  · intro r' hE
    rw [(submitQuestion_ok hE).1]

/-- Claim C8 witness: an empty submission to the concrete question-phase
room is rejected, and a submission exactly at the deadline is accepted. -/
theorem submitQuestion_guard_witness :
    (∃ e, submitQuestion demoRoomQ "host-1" "  " "q-9" 0 = .error e) ∧
    (∃ r', submitQuestion demoRoomQ "host-1" "hi" "q-9" 60000 = .ok r') := by
  have hpos : ∀ d, demoRoomQ.questionDeadline = some d → (0 : Int) < d := by
    intro d hd
    injection hd with hd
    omega
  obtain ⟨hiff, -, -⟩ :=
    submitQuestion_guard demoRoomQ "host-1" "  " "q-9" 0 demoHost rfl hpos
  obtain ⟨-, hacc, -⟩ :=
    submitQuestion_guard demoRoomQ "host-1" "hi" "q-9" 60000 demoHost rfl hpos
  exact ⟨hiff.mpr (Or.inr (Or.inr (by decide))), hacc rfl rfl (by decide)⟩

/-! Single-host machinery. -/

/-- A unique-key association list has exactly one entry satisfying a
predicate that holds exactly on key `k`, when `k` is present. -/
theorem filter_key_length_one {m : List (String × α)}
    (hnd : (m.map Prod.fst).Nodup) {k : String} (hk : k ∈ m.map Prod.fst)
    {p : String × α → Bool} (hp : ∀ kp ∈ m, p kp = true ↔ kp.1 = k) :
    (m.filter p).length = 1 := by
  induction m with
  | nil => simp at hk
  | cons kv rest ih =>
    simp only [List.map_cons, List.nodup_cons] at hnd
    by_cases hkv : kv.1 = k
    · have hq : p kv = true := (hp kv (List.mem_cons_self _ _)).mpr hkv
      have hrest : rest.filter p = [] := by
        refine List.filter_eq_nil_iff.mpr fun kp hm hc => ?_
        have hkp := (hp kp (List.mem_cons_of_mem _ hm)).mp hc
        exact hnd.1 (hkv ▸ hkp ▸ List.mem_map_of_mem Prod.fst hm)
      simp [List.filter_cons, hq, hrest]
    · have hq : ¬ p kv = true := fun hc => hkv ((hp kv (List.mem_cons_self _ _)).mp hc)
      simp only [List.map_cons, List.mem_cons] at hk
      have hk' : k ∈ rest.map Prod.fst := by
        rcases hk with h | h
        · exact absurd h.symm hkv
        · exact h
      simp only [List.filter_cons, if_neg hq]
      exact ih hnd.2 hk' (fun kp hm => hp kp (List.mem_cons_of_mem _ hm))

theorem playersWF_created {hostName : String} {dur : Option Int}
    {code hostId : String} {now : Int} {r : Room}
    (hE : createRoom hostName dur code hostId now = .ok r) : PlayersWF r := by
  obtain ⟨-, hh, -, -, -, -, -, hpl, -, -⟩ := createRoom_ok hE
  refine ⟨?_, ?_, ?_, ?_⟩ <;> rw [hpl] <;> simp [hh]

/-- Updating an existing key with a player that keeps its `id` and `isHost`
preserves the player-map well-formedness properties. -/
theorem recordSet_update_preserves {m : List (String × Player)} {k H : String}
    {p v : Player} (hget : recordGet m k = some p) (hidv : v.id = p.id)
    (hhv : v.isHost = p.isHost) (hnd : (m.map Prod.fst).Nodup)
    (hid : ∀ kp ∈ m, kp.2.id = kp.1)
    (hhost : ∀ kp ∈ m, kp.2.isHost = true ↔ kp.1 = H)
    (hm : H ∈ m.map Prod.fst) :
    ((recordSet m k v).map Prod.fst).Nodup ∧
    (∀ kp ∈ recordSet m k v, kp.2.id = kp.1) ∧
    (∀ kp ∈ recordSet m k v, kp.2.isHost = true ↔ kp.1 = H) ∧
    H ∈ (recordSet m k v).map Prod.fst := by
  have hpmem : (k, p) ∈ m := recordGet_mem hget
  have hkmem : k ∈ m.map Prod.fst := List.mem_map_of_mem Prod.fst hpmem
  have hkeys := recordSet_keys_of_mem (v := v) hkmem
  refine ⟨by rw [hkeys]; exact hnd, ?_, ?_, by rw [hkeys]; exact hm⟩
  · intro kp hkp
    rcases mem_recordSet hkp with h | h
    · exact hid kp h
    · rw [h]
      rw [hidv, hid (k, p) hpmem]
  · intro kp hkp
    rcases mem_recordSet hkp with h | h
    · exact hhost kp h
    · rw [h]
      simpa [hhv] using hhost (k, p) hpmem

theorem playersWF_step {r r' : Room} (hwf : PlayersWF r)
    (hstep : EngineStep r r') : PlayersWF r' := by
  obtain ⟨hnd, hid, hhost, hmem⟩ := hwf
  cases hstep with
  | join name pid now _ _ hfresh hok =>
    obtain ⟨hpl, -, -, hhid, -, -, -⟩ := joinRoom_ok hok
    have hfresh' : pid ∉ r.players.map Prod.fst := recordGet_eq_none_iff.mp hfresh
    rw [recordSet_of_get_none hfresh] at hpl
    have hne : pid ≠ r.hostId := fun hc => hfresh' (hc ▸ hmem)
    refine ⟨?_, ?_, ?_, ?_⟩
    · rw [hpl]
      simp only [List.map_append, List.map_cons, List.map_nil]
      rw [List.nodup_append]
      exact ⟨hnd, List.nodup_singleton _, by simpa using fun hc => hfresh' hc⟩
    · intro kp hkp
      rw [hpl] at hkp
      rcases List.mem_append.mp hkp with h | h
      · exact hid kp h
      · obtain rfl : kp = _ := by simpa using h
        rfl
    · intro kp hkp
      rw [hhid]
      rw [hpl] at hkp
      rcases List.mem_append.mp hkp with h | h
      · exact hhost kp h
      · obtain rfl : kp = _ := by simpa using h
        simpa using hne
    · rw [hpl, hhid]
      simp only [List.map_append, List.map_cons, List.map_nil]
      exact List.mem_append.mpr (Or.inl hmem)
  | startQuestion hid' now _ _ hok =>
    obtain ⟨heq, -⟩ := startQuestionPhase_ok hok
    subst heq
    exact ⟨hnd, hid, hhost, hmem⟩
  | question pid text qid now _ _ hok =>
    obtain ⟨heq, -⟩ := submitQuestion_ok hok
    subst heq
    exact ⟨hnd, hid, hhost, hmem⟩
  | startReview hid' _ _ hok =>
    obtain ⟨heq, -⟩ := startReviewPhase_ok hok
    subst heq
    have hkeys : ∀ l : List (String × Player),
        (l.map (fun p => (p.1, { p.2 with currentQuestionIndex := 0, hasFinishedVoting := false }))).map Prod.fst = l.map Prod.fst := by
      intro l
      induction l with
      | nil => rfl
      | cons a rest ih => simp [ih]
    refine ⟨?_, ?_, ?_, ?_⟩
    · show ((r.players.map _).map Prod.fst).Nodup
      rw [hkeys]
      exact hnd
    · intro kp hkp
      obtain ⟨orig, hor, rfl⟩ := List.mem_map.mp hkp
      exact hid orig hor
    · intro kp hkp
      obtain ⟨orig, hor, rfl⟩ := List.mem_map.mp hkp
      exact hhost orig hor
    · show r.hostId ∈ (r.players.map _).map Prod.fst
      rw [hkeys]
      exact hmem
  | vote pid tid qi _ _ hok =>
    obtain ⟨p, t, q, hp, -, -, -, -, hps, hhid, -, -⟩ := submitVote_ok hok
    have hh1 := recordSet_update_preserves (H := r.hostId)
      (v := { p with currentQuestionIndex := qi + 1 }) hp rfl rfl hnd hid hhost hmem
    have hh2 := recordSet_update_preserves (H := r.hostId)
      (v := { p with hasFinishedVoting := true }) hp rfl rfl hnd hid hhost hmem
    unfold PlayersWF
    rw [hps, hhid]
    split
    · exact hh1
    · exact hh2
  | nextQuestion hid' _ _ hok =>
    obtain ⟨heq, -⟩ := goToNextQuestion_ok hok
    subst heq
    exact ⟨hnd, hid, hhost, hmem⟩
  | complete hid' _ _ hok =>
    obtain ⟨heq, -⟩ := completeRoom_ok hok
    subst heq
    exact ⟨hnd, hid, hhost, hmem⟩

theorem reachable_playersWF {r : Room} (h : ReachableRoom r) : PlayersWF r := by
  induction h with
  | created hostName dur code hostId now r hE => exact playersWF_created hE
  | step r r' hr hstep ih => exact playersWF_step ih hstep

/-- Claim C9: in every reachable room exactly one player is flagged host,
that player's key and `id` both equal the room's `hostId`, and no engine
operation ever changes `hostId`. -/
theorem single_host_invariant (r : Room) (h : ReachableRoom r) :
    (r.players.filter (fun kp => kp.2.isHost)).length = 1 ∧
    (∀ kp ∈ r.players, kp.2.isHost = true → kp.1 = r.hostId ∧ kp.2.id = r.hostId) ∧
    (∀ r', EngineStep r r' → r'.hostId = r.hostId) := by
  obtain ⟨hnd, hid, hhost, hmem⟩ := reachable_playersWF h
  refine ⟨?_, ?_, ?_⟩
  · exact filter_key_length_one hnd hmem hhost
  · intro kp hkp hh
    have h1 := (hhost kp hkp).mp hh
    exact ⟨h1, by rw [hid kp hkp, h1]⟩
  · intro r' hstep
    cases hstep with
    | join name pid now _ _ hfresh hok => exact (joinRoom_ok hok).2.2.2.1
    | startQuestion hid' now _ _ hok => rw [(startQuestionPhase_ok hok).1]
    | question pid text qid now _ _ hok => rw [(submitQuestion_ok hok).1]
    | startReview hid' _ _ hok => rw [(startReviewPhase_ok hok).1]
    | vote pid tid qi _ _ hok =>
      obtain ⟨p, t, q, -, -, -, -, -, -, hhid, -, -⟩ := submitVote_ok hok
      exact hhid
    | nextQuestion hid' _ _ hok => rw [(goToNextQuestion_ok hok).1]
    | complete hid' _ _ hok => rw [(completeRoom_ok hok).1]

/-- Claim C9 witness: the invariant at the concrete review room, and
`hostId` constancy across a concrete step. -/
theorem single_host_invariant_witness :
    (demoRoomReview.players.filter (fun kp => kp.2.isHost)).length = 1 ∧
    demoRoomDone.hostId = demoRoom0.hostId := by
  obtain ⟨h1, -, -⟩ := single_host_invariant demoRoomReview demoRoomReview_reachable
  obtain ⟨-, -, h3⟩ := single_host_invariant demoRoom0 demoRoom0_reachable
  exact ⟨h1, h3 demoRoomDone (.complete "host-1" _ _ rfl)⟩

end Census
